import Mathlib

/-!
Verification of the FT-Magnitude-Phase-Mixer core against its specification.

The definitions below are a shallow embedding of the Python source:
* `Mixer.mix_images` / `Mixer.__apply_region_mask`  (src/app/core/mixer.py)
* `ImageProcessor.process_input_images`             (src/app/core/image_processor.py)
* `ApplicationLogic.start_mixing_process`           (src/main.py)
* `MixingThread.run`                                (src/app/workers/mixing_thread.py)

Numeric arrays are modelled as functions out of `ℕ` (the mixer pipeline over
`ℝ`/`ℂ`, the image processor over `ℚ` so that concrete counterexamples can be
evaluated); machine floats are modelled as exact reals/rationals.
-/

namespace FTMixer

/-! ## Mixer: region mask (src/app/core/mixer.py, `__apply_region_mask`) -/

/-- The coordinate clamp from `__apply_region_mask`:
`x = max(0, min(x, width - w))` (and identically for `y` against
`height - h`). -/
def clampCoord (x w width : ℤ) : ℤ :=
  max 0 (min x (width - w))

/-- Membership of a cell `(i, j)` (row `i`, column `j`) in the clamped
selector rectangle, exactly the index set addressed by the NumPy slice
`mask[y:y + h, x:x + w]` after the clamp (slices clip at the array edge,
which for indices `i < height`, `j < width` agrees with these bounds). -/
def inClampedRect (region : ℤ × ℤ × ℤ × ℤ) (height width : ℕ) (i j : ℕ) : Prop :=
  match region with
  | (x, y, w, h) =>
    let xc := clampCoord x w (width : ℤ)
    let yc := clampCoord y h (height : ℤ)
    yc ≤ (i : ℤ) ∧ (i : ℤ) < yc + h ∧ xc ≤ (j : ℤ) ∧ (j : ℤ) < xc + w

instance (region : ℤ × ℤ × ℤ × ℤ) (height width i j : ℕ) :
    Decidable (inClampedRect region height width i j) := by
  unfold inClampedRect
  exact match region with
  | (x, y, w, h) => instDecidableAnd

/-- The real-valued mask built by `__apply_region_mask`: all ones for mode
`"None"`; for `"Inner"` the array is zeroed and the clamped rectangle set to
one; for `"Outer"` the array of ones has the clamped rectangle zeroed. -/
def regionMask (mode : String) (region : ℤ × ℤ × ℤ × ℤ)
    (height width : ℕ) (i j : ℕ) : ℝ :=
  if mode = "Inner" then
    (if inClampedRect region height width i j then 1 else 0)
  else if mode = "Outer" then
    (if inClampedRect region height width i j then 0 else 1)
  else 1

/-- Model of `__apply_region_mask`: elementwise product `ft_data * mask` (the
real-valued mask multiplies real and imaginary parts identically). -/
def applyRegionMask (mode : String) (region : ℤ × ℤ × ℤ × ℤ)
    (height width : ℕ) (ft : ℕ → ℕ → ℂ) (i j : ℕ) : ℂ :=
  ft i j * (regionMask mode region height width i j : ℝ)

/-! ## Theorems for C2 (mask complementarity) and C8 (region clamp) -/

/-- C2: for every fixed selector region, spectrum, frame size and cell, the
Inner-masked spectrum plus the Outer-masked spectrum equals the spectrum
exactly; the Inner and Outer masks are exact 0/1 elementwise complements
(their values sum to 1 and are `(1,0)` inside the clamped rectangle and
`(0,1)` outside); and for region mode `"None"` the mask is 1 everywhere, so
the masked spectrum is the spectrum unchanged. -/
theorem mask_inner_outer_complementary
    (region : ℤ × ℤ × ℤ × ℤ) (height width : ℕ) (S : ℕ → ℕ → ℂ) (i j : ℕ) :
    applyRegionMask "Inner" region height width S i j
        + applyRegionMask "Outer" region height width S i j = S i j
    ∧ regionMask "Inner" region height width i j
        + regionMask "Outer" region height width i j = 1
    ∧ ((regionMask "Inner" region height width i j = 1
          ∧ regionMask "Outer" region height width i j = 0)
        ∨ (regionMask "Inner" region height width i j = 0
          ∧ regionMask "Outer" region height width i j = 1))
    ∧ regionMask "None" region height width i j = 1
    ∧ applyRegionMask "None" region height width S i j = S i j := by
  unfold applyRegionMask regionMask
  by_cases h : inClampedRect region height width i j <;> simp [h]

/-- C8 (counterexample to the claim as stated): when the region is larger
than the frame the clamped coordinate cannot satisfy `x ≤ width - w`.  With
requested `x = 0`, region width `w = 200` and frame width `width = 100`, the
clamp from `__apply_region_mask` yields `0`, yet `width - w = -100 < 0`. -/
theorem clamp_claim_counterexample :
    clampCoord 0 200 100 = 0 ∧ ¬ clampCoord 0 200 100 ≤ 100 - 200 := by
  constructor <;> decide

/-- C8 (amended): provided the region fits inside the frame (`w ≤ width` and
`h ≤ height`), for every requested position `(x, y)` — including positions
outside the image bounds — the clamped rectangle satisfies
`0 ≤ x ≤ width - w` and `0 ≤ y ≤ height - h`. -/
theorem clamp_in_bounds (x y w h width height : ℤ)
    (hw : w ≤ width) (hh : h ≤ height) :
    0 ≤ clampCoord x w width ∧ clampCoord x w width ≤ width - w
    ∧ 0 ≤ clampCoord y h height ∧ clampCoord y h height ≤ height - h := by
  unfold clampCoord
  omega

/-- Witness for `clamp_in_bounds` at a concrete out-of-bounds request:
requested position `(-37, 999)` with a `50 × 50` region in a `200 × 300`
frame. -/
theorem clamp_in_bounds_witness :
    (50 : ℤ) ≤ 200 ∧ (50 : ℤ) ≤ 300 ∧
      (0 ≤ clampCoord (-37) 50 200 ∧ clampCoord (-37) 50 200 ≤ 200 - 50
        ∧ 0 ≤ clampCoord 999 50 300 ∧ clampCoord 999 50 300 ≤ 300 - 50) :=
  ⟨by decide, by decide, clamp_in_bounds (-37) 999 50 50 200 300 (by decide) (by decide)⟩

/-! ## Mixer: spectra, per-slot contributions and the mixing loop
(src/app/core/mixer.py, `mix_images`) -/

/-- Model of `np.fft.fft2` on a `H × W` real array: the unnormalized 2D discrete
Fourier transform. -/
noncomputable def fft2 (H W : ℕ) (f : ℕ → ℕ → ℝ) (k l : ℕ) : ℂ :=
  ∑ m ∈ Finset.range H, ∑ n ∈ Finset.range W,
    (f m n : ℂ) *
      Complex.exp (-(2 * Real.pi * Complex.I) *
        ((k * m : ℕ) / (H : ℂ) + (l * n : ℕ) / (W : ℂ)))

/-- Model of `np.fft.fftshift` on a `H × W` array: roll each axis by half its length,
`out[i][j] = in[(i - H//2) mod H][(j - W//2) mod W]`. -/
def fftshift2 (H W : ℕ) (f : ℕ → ℕ → ℂ) (i j : ℕ) : ℂ :=
  f ((i + (H - H / 2)) % H) ((j + (W - W / 2)) % W)

/-- Model of `np.fft.ifftshift`: the inverse roll,
`out[i][j] = in[(i + H//2) mod H][(j + W//2) mod W]`. -/
def ifftshift2 (H W : ℕ) (f : ℕ → ℕ → ℂ) (i j : ℕ) : ℂ :=
  f ((i + H / 2) % H) ((j + W / 2) % W)

/-- Model of `np.fft.ifft2`: the inverse 2D discrete Fourier transform with the
`1/(H·W)` normalization. -/
noncomputable def ifft2 (H W : ℕ) (f : ℕ → ℕ → ℂ) (m n : ℕ) : ℂ :=
  (1 / ((H : ℂ) * (W : ℂ))) *
    ∑ k ∈ Finset.range H, ∑ l ∈ Finset.range W,
      f k l *
        Complex.exp ((2 * Real.pi * Complex.I) *
          ((k * m : ℕ) / (H : ℂ) + (l * n : ℕ) / (W : ℂ)))

/-- The weighted complex value `mix_images` adds to `combined_ft` for one
slot, as a function of the slot's component-selection string, its weight and
one masked-spectrum entry `z`.  Mirrors the branch structure of the source:
`FT Magnitude` uses `weight * np.abs(z) * np.exp(1j * np.angle(z))`,
`FT Phase` uses `weight * np.exp(1j * np.angle(z))`,
`FT Real` uses `weight * (np.real(z) + 0j)`,
`FT Imaginary` uses `weight * (0 + 1j * np.imag(z))`,
and any other string contributes nothing. -/
noncomputable def componentTerm (selected : String) (weight : ℝ) (z : ℂ) : ℂ :=
  if selected = "FT Magnitude" then
    (weight : ℂ) * (Complex.abs z : ℝ) * Complex.exp (Complex.I * (z.arg : ℝ))
  else if selected = "FT Phase" then
    (weight : ℂ) * Complex.exp (Complex.I * (z.arg : ℝ))
  else if selected = "FT Real" then
    (weight : ℂ) * ((z.re : ℂ) + 0)
  else if selected = "FT Imaginary" then
    (weight : ℂ) * (0 + Complex.I * (z.im : ℂ))
  else 0

/-- The masked, centered spectrum of one slot's image inside `mix_images`:
`__apply_region_mask(np.fft.fftshift(np.fft.fft2(image)), ...)`. -/
noncomputable def maskedSpectrum (mode : String) (region : ℤ × ℤ × ℤ × ℤ)
    (H W : ℕ) (img : ℕ → ℕ → ℝ) : ℕ → ℕ → ℂ :=
  applyRegionMask mode region H W (fftshift2 H W (fft2 H W img))

/-- One iteration of the `mix_images` accumulator loop: skip the slot when
`images[i] is None or weights[i] == 0.0` (the `continue`), otherwise add the
weighted component term of its masked spectrum into the accumulator. -/
noncomputable def mixStep (mode : String) (region : ℤ × ℤ × ℤ × ℤ)
    (H W : ℕ) (images : Fin 4 → Option (ℕ → ℕ → ℝ))
    (weights : Fin 4 → ℝ) (sels : Fin 4 → String)
    (acc : ℕ → ℕ → ℂ) (i : Fin 4) : ℕ → ℕ → ℂ :=
  match images i with
  | none => acc
  | some img =>
    if weights i = 0 then acc
    else fun r c =>
      acc r c +
        componentTerm (sels i) (weights i)
          (maskedSpectrum mode region H W img r c)

/-- The accumulator loop of `mix_images`: starting from the zero complex
array, fold `mixStep` over the slots in order `0,1,2,3`. -/
noncomputable def combinedFT (mode : String) (region : ℤ × ℤ × ℤ × ℤ)
    (H W : ℕ) (images : Fin 4 → Option (ℕ → ℕ → ℝ))
    (weights : Fin 4 → ℝ) (sels : Fin 4 → String) : ℕ → ℕ → ℂ :=
  (List.finRange 4).foldl (mixStep mode region H W images weights sels)
    (fun _ _ => 0)

/-- The total contribution of slot `i` to the accumulator: zero for an empty
or zero-weighted slot, otherwise the weighted component term of the slot's
masked spectrum. -/
noncomputable def slotShare (mode : String) (region : ℤ × ℤ × ℤ × ℤ)
    (H W : ℕ) (images : Fin 4 → Option (ℕ → ℕ → ℝ))
    (weights : Fin 4 → ℝ) (sels : Fin 4 → String) (i : Fin 4) : ℕ → ℕ → ℂ :=
  match images i with
  | none => fun _ _ => 0
  | some img =>
    if weights i = 0 then fun _ _ => 0
    else fun r c =>
      componentTerm (sels i) (weights i)
        (maskedSpectrum mode region H W img r c)

/-- Model of `cv2.normalize(src, None, 0, 255, cv2.NORM_MINMAX)` on an `H × W`
nonnegative real array: affinely rescale so the minimum maps to 0 and the
maximum to 255; when the array is constant (or empty) the scale is zero and
every entry maps to 0. -/
noncomputable def minmaxNormalize (H W : ℕ) (f : ℕ → ℕ → ℝ) : ℕ → ℕ → ℝ :=
  if hne : ((Finset.range H) ×ˢ (Finset.range W)).Nonempty then
    let lo := ((Finset.range H) ×ˢ (Finset.range W)).inf' hne fun p => f p.1 p.2
    let hi := ((Finset.range H) ×ˢ (Finset.range W)).sup' hne fun p => f p.1 p.2
    fun i j => if lo < hi then (f i j - lo) * 255 / (hi - lo) else 0
  else fun _ _ => 0

/-- Model of `.astype(np.uint8)` on a nonnegative float in `[0, 255]`: truncation
toward zero. -/
noncomputable def toUint8 (x : ℝ) : ℕ := (⌊x⌋).toNat

/-- The raster returned by `mix_images`: an 8-bit image with its dimensions. -/
structure MixResult where
  rows : ℕ
  cols : ℕ
  px : ℕ → ℕ → ℕ

/-- Model of `Mixer.mix_images`: if either working dimension is `None`, return the
fixed `np.zeros((100, 100), dtype=np.uint8)` placeholder; otherwise
accumulate the weighted masked per-slot contributions, inverse-shift,
inverse-transform, take elementwise magnitude, and min-max normalize to an
8-bit raster of the working size. -/
noncomputable def mix_images (images : Fin 4 → Option (ℕ → ℕ → ℝ))
    (weights : Fin 4 → ℝ) (sels : Fin 4 → String)
    (region : ℤ × ℤ × ℤ × ℤ) (mode : String)
    (minHeight minWidth : Option ℕ) : MixResult :=
  match minWidth with
  | none => ⟨100, 100, fun _ _ => 0⟩
  | some W =>
    match minHeight with
    | none => ⟨100, 100, fun _ _ => 0⟩
    | some H =>
      let combined := combinedFT mode region H W images weights sels
      let inv := ifft2 H W (ifftshift2 H W combined)
      let mag := fun r c => Complex.abs (inv r c)
      ⟨H, W, fun r c => toUint8 (minmaxNormalize H W mag r c)⟩

/-! ## Lemmas about the mixing loop -/

/-- One loop iteration adds exactly the slot's share to the accumulator. -/
theorem mixStep_apply (mode : String) (region : ℤ × ℤ × ℤ × ℤ)
    (H W : ℕ) (images : Fin 4 → Option (ℕ → ℕ → ℝ))
    (weights : Fin 4 → ℝ) (sels : Fin 4 → String)
    (acc : ℕ → ℕ → ℂ) (i : Fin 4) (r c : ℕ) :
    mixStep mode region H W images weights sels acc i r c
      = acc r c + slotShare mode region H W images weights sels i r c := by
  cases h : images i with
  | none => simp [mixStep, slotShare, h]
  | some img =>
    by_cases hw : weights i = 0 <;> simp [mixStep, slotShare, h, hw]

/-- Unrolling the `mix_images` accumulator loop: after folding any list of
slot indices, each visited slot has added exactly its `slotShare`. -/
theorem foldl_mixStep_eq_sum (mode : String) (region : ℤ × ℤ × ℤ × ℤ)
    (H W : ℕ) (images : Fin 4 → Option (ℕ → ℕ → ℝ))
    (weights : Fin 4 → ℝ) (sels : Fin 4 → String)
    (l : List (Fin 4)) (acc : ℕ → ℕ → ℂ) (r c : ℕ) :
    (l.foldl (mixStep mode region H W images weights sels) acc) r c
      = acc r c
        + (l.map fun i => slotShare mode region H W images weights sels i r c).sum := by
  induction l generalizing acc with
  | nil => simp
  | cons i t ih =>
    rw [List.foldl_cons, List.map_cons, List.sum_cons, ih, mixStep_apply]
    ring

/-- The accumulator equals the complex sum of the four slot shares. -/
theorem combinedFT_eq_sum (mode : String) (region : ℤ × ℤ × ℤ × ℤ)
    (H W : ℕ) (images : Fin 4 → Option (ℕ → ℕ → ℝ))
    (weights : Fin 4 → ℝ) (sels : Fin 4 → String) (r c : ℕ) :
    combinedFT mode region H W images weights sels r c
      = ∑ i : Fin 4, slotShare mode region H W images weights sels i r c := by
  unfold combinedFT
  rw [foldl_mixStep_eq_sum, Fin.sum_univ_def]
  simp

/-! ## Theorem for C1 (per-slot contribution semantics) -/

/-- C1: the accumulator of `mix_images` is the complex sum of the per-slot
contributions; a slot with a non-empty raster and positive weight `w`
contributes the weighted component term of its masked spectrum `z`, which
satisfies exactly: for `FT Magnitude`, `w · |z| · exp(i·arg z)` — the full
masked complex value scaled by `w`, i.e. `w · z`; for `FT Phase`,
`w · exp(i·arg z)` with magnitude collapsed to unity; for `FT Real`,
`w · re(z)` in the real channel with zero imaginary part; for
`FT Imaginary`, `w · i · im(z)` in the imaginary channel with zero real
part; and empty or zero-weight slots contribute zero. -/
theorem mix_contribution_semantics (mode : String) (region : ℤ × ℤ × ℤ × ℤ)
    (H W : ℕ) (images : Fin 4 → Option (ℕ → ℕ → ℝ))
    (weights : Fin 4 → ℝ) (sels : Fin 4 → String) :
    (∀ r c, combinedFT mode region H W images weights sels r c
        = ∑ i : Fin 4, slotShare mode region H W images weights sels i r c)
    ∧ (∀ i img, images i = some img → 0 < weights i → ∀ r c,
        slotShare mode region H W images weights sels i r c
          = componentTerm (sels i) (weights i)
              (maskedSpectrum mode region H W img r c))
    ∧ (∀ (w : ℝ) (z : ℂ), 0 < w →
        (componentTerm "FT Magnitude" w z
            = (w : ℂ) * (Complex.abs z : ℝ) * Complex.exp (Complex.I * (z.arg : ℝ))
          ∧ componentTerm "FT Magnitude" w z = (w : ℂ) * z)
        ∧ componentTerm "FT Phase" w z
            = (w : ℂ) * Complex.exp (Complex.I * (z.arg : ℝ))
        ∧ (componentTerm "FT Real" w z = (w : ℂ) * (z.re : ℂ)
          ∧ (componentTerm "FT Real" w z).im = 0)
        ∧ (componentTerm "FT Imaginary" w z = (w : ℂ) * (Complex.I * (z.im : ℂ))
          ∧ (componentTerm "FT Imaginary" w z).re = 0))
    ∧ (∀ i r c, images i = none ∨ weights i = 0 →
        slotShare mode region H W images weights sels i r c = 0) := by
  refine ⟨fun r c => combinedFT_eq_sum mode region H W images weights sels r c,
    ?_, ?_, ?_⟩
  · intro i img hi hw r c
    have hw0 : weights i ≠ 0 := ne_of_gt hw
    simp [slotShare, hi, hw0]
  · intro w z _
    refine ⟨⟨by simp [componentTerm], ?_⟩, by simp [componentTerm], ⟨?_, ?_⟩, ⟨?_, ?_⟩⟩
    · show (w : ℂ) * (Complex.abs z : ℝ) * Complex.exp (Complex.I * (z.arg : ℝ)) = w * z
      rw [mul_assoc, mul_comm Complex.I ((z.arg : ℝ) : ℂ),
        Complex.abs_mul_exp_arg_mul_I]
    · simp [componentTerm]
    · simp [componentTerm]
    · simp [componentTerm]
    · simp [componentTerm, Complex.ext_iff]
  · intro i r c h
    rcases h with h | h
    · simp [slotShare, h]
    · cases hi : images i with
      | none => simp [slotShare, hi]
      | some img => simp [slotShare, hi, h]

/-- Witness for `mix_contribution_semantics`: with no image loaded every slot
share is zero, and at weight `1` and masked value `z = 1` the `FT Magnitude`
contribution is the full complex value `1`. -/
theorem mix_contribution_semantics_witness :
    componentTerm "FT Magnitude" 1 1 = (1 : ℂ)
    ∧ slotShare "None" (0, 0, 0, 0) 0 0 (fun _ => none) (fun _ => 0)
        (fun _ => "FT Magnitude") 0 0 0 = 0 := by
  have h := mix_contribution_semantics "None" (0, 0, 0, 0) 0 0
    (fun _ => none) (fun _ => 0) (fun _ => "FT Magnitude")
  refine ⟨?_, h.2.2.2 0 0 0 (Or.inl rfl)⟩
  have hm := (h.2.2.1 1 1 one_pos).1.2
  simpa using hm

/-! ## Theorem for C7 (undefined WorkingFrame placeholder) -/

/-- C7: whenever either working dimension is undefined, `mix_images` returns
the fixed `100 × 100` all-zero 8-bit raster rather than failing. -/
theorem mix_undefined_frame_placeholder (images : Fin 4 → Option (ℕ → ℕ → ℝ))
    (weights : Fin 4 → ℝ) (sels : Fin 4 → String)
    (region : ℤ × ℤ × ℤ × ℤ) (mode : String) :
    (∀ mw, mix_images images weights sels region mode none mw
        = ⟨100, 100, fun _ _ => 0⟩)
    ∧ (∀ mh, mix_images images weights sels region mode mh none
        = ⟨100, 100, fun _ _ => 0⟩)
    ∧ (∀ mw i j, (mix_images images weights sels region mode none mw).rows = 100
        ∧ (mix_images images weights sels region mode none mw).cols = 100
        ∧ (mix_images images weights sels region mode none mw).px i j = 0) := by
  refine ⟨fun mw => ?_, fun mh => rfl, fun mw i j => ?_⟩
  · cases mw <;> rfl
  · cases mw <;> exact ⟨rfl, rfl, rfl⟩

/-! ## Theorem for C9 (determinism of mix) -/

/-- C9: the mix operation is deterministic — there is no randomness source
anywhere in `mix_images`, so two runs on identical inputs (rasters, weights,
component selections, selector region, region mode and working dimensions)
produce identical output rasters. -/
theorem mix_deterministic
    (images₁ images₂ : Fin 4 → Option (ℕ → ℕ → ℝ))
    (weights₁ weights₂ : Fin 4 → ℝ) (sels₁ sels₂ : Fin 4 → String)
    (region₁ region₂ : ℤ × ℤ × ℤ × ℤ) (mode₁ mode₂ : String)
    (mh₁ mh₂ mw₁ mw₂ : Option ℕ)
    (him : images₁ = images₂) (hw : weights₁ = weights₂)
    (hs : sels₁ = sels₂) (hr : region₁ = region₂) (hm : mode₁ = mode₂)
    (hh : mh₁ = mh₂) (hwd : mw₁ = mw₂) :
    mix_images images₁ weights₁ sels₁ region₁ mode₁ mh₁ mw₁
      = mix_images images₂ weights₂ sels₂ region₂ mode₂ mh₂ mw₂ := by
  subst him hw hs hr hm hh hwd
  rfl

/-- Witness for `mix_deterministic` at a concrete input. -/
theorem mix_deterministic_witness :
    mix_images (fun _ => none) (fun _ => 0) (fun _ => "FT Magnitude")
        (0, 0, 200, 200) "None" none none
      = mix_images (fun _ => none) (fun _ => 0) (fun _ => "FT Magnitude")
        (0, 0, 200, 200) "None" none none :=
  mix_deterministic _ _ _ _ _ _ _ _ _ _ _ _ _ _
    rfl rfl rfl rfl rfl rfl rfl

/-! ## Theorem for C10 (mix is total and shape-stable) -/

/-- The min-max normalization lands in `[0, 255]` at every in-range cell. -/
theorem minmaxNormalize_mem_Icc (H W : ℕ) (f : ℕ → ℕ → ℝ) (i j : ℕ)
    (hi : i < H) (hj : j < W) :
    0 ≤ minmaxNormalize H W f i j ∧ minmaxNormalize H W f i j ≤ 255 := by
  have hmem : (i, j) ∈ (Finset.range H) ×ˢ (Finset.range W) := by
    simp [Finset.mem_product, hi, hj]
  have hne : ((Finset.range H) ×ˢ (Finset.range W)).Nonempty := ⟨_, hmem⟩
  unfold minmaxNormalize
  rw [dif_pos hne]
  set lo := ((Finset.range H) ×ˢ (Finset.range W)).inf' hne fun p => f p.1 p.2 with hlo
  set hi' := ((Finset.range H) ×ˢ (Finset.range W)).sup' hne fun p => f p.1 p.2 with hhi
  by_cases hlt : lo < hi'
  · rw [if_pos hlt]
    have h₁ : lo ≤ f i j := Finset.inf'_le (fun p => f p.1 p.2) hmem
    have h₂ : f i j ≤ hi' := Finset.le_sup' (fun p => f p.1 p.2) hmem
    have hpos : 0 < hi' - lo := by linarith
    constructor
    · exact div_nonneg (mul_nonneg (by linarith) (by norm_num)) (by linarith)
    · rw [div_le_iff₀ hpos]
      nlinarith
  · rw [if_neg hlt]
    norm_num

/-- C10: with a defined WorkingFrame `(H, W)`, `mix_images` always returns a
raster of exactly that shape with every in-frame pixel in `[0, 255]`; and
when no slot contributes (every slot is empty or has weight exactly 0) the
accumulator stays zero and every returned pixel is zero. -/
theorem mix_total_shape_stable (images : Fin 4 → Option (ℕ → ℕ → ℝ))
    (weights : Fin 4 → ℝ) (sels : Fin 4 → String)
    (region : ℤ × ℤ × ℤ × ℤ) (mode : String) (H W : ℕ) :
    (mix_images images weights sels region mode (some H) (some W)).rows = H
    ∧ (mix_images images weights sels region mode (some H) (some W)).cols = W
    ∧ (∀ i j, i < H → j < W →
        (mix_images images weights sels region mode (some H) (some W)).px i j ≤ 255)
    ∧ ((∀ s : Fin 4, images s = none ∨ weights s = 0) →
        (∀ r c, combinedFT mode region H W images weights sels r c = 0)
        ∧ ∀ i j,
          (mix_images images weights sels region mode (some H) (some W)).px i j = 0) := by
  refine ⟨rfl, rfl, ?_, ?_⟩
  · intro i j hi hj
    show toUint8 (minmaxNormalize H W
      (fun r c => Complex.abs
        (ifft2 H W (ifftshift2 H W (combinedFT mode region H W images weights sels)) r c))
      i j) ≤ 255
    have hb := minmaxNormalize_mem_Icc H W
      (fun r c => Complex.abs
        (ifft2 H W (ifftshift2 H W (combinedFT mode region H W images weights sels)) r c))
      i j hi hj
    unfold toUint8
    have hfloor : (⌊(minmaxNormalize H W (fun r c => Complex.abs
        (ifft2 H W (ifftshift2 H W (combinedFT mode region H W images weights sels)) r c))
        i j)⌋ : ℤ) ≤ 255 := by
      have h2 := Int.floor_le_floor hb.2
      simpa using h2
    exact Int.toNat_le.mpr (by exact_mod_cast hfloor)
  · intro hskip
    have hcomb : ∀ r c, combinedFT mode region H W images weights sels r c = 0 := by
      intro r c
      rw [combinedFT_eq_sum]
      refine Finset.sum_eq_zero fun s _ => ?_
      rcases hskip s with h | h
      · simp [slotShare, h]
      · cases hi : images s with
        | none => simp [slotShare, hi]
        | some img => simp [slotShare, hi, h]
    refine ⟨hcomb, ?_⟩
    have hmag : ∀ r c,
        Complex.abs
          (ifft2 H W (ifftshift2 H W (combinedFT mode region H W images weights sels)) r c)
          = 0 := by
      intro r c
      have hshift : ∀ a b, ifftshift2 H W (combinedFT mode region H W images weights sels) a b = 0 := by
        intro a b
        unfold ifftshift2
        exact hcomb _ _
      have : ifft2 H W (ifftshift2 H W (combinedFT mode region H W images weights sels)) r c = 0 := by
        unfold ifft2
        rw [Finset.sum_congr rfl fun k _ =>
          Finset.sum_congr rfl fun l _ => by rw [hshift k l, zero_mul]]
        simp
      rw [this]
      simp
    intro i j
    show toUint8 (minmaxNormalize H W
      (fun r c => Complex.abs
        (ifft2 H W (ifftshift2 H W (combinedFT mode region H W images weights sels)) r c))
      i j) = 0
    have hnorm : minmaxNormalize H W
        (fun r c => Complex.abs
          (ifft2 H W (ifftshift2 H W (combinedFT mode region H W images weights sels)) r c))
        i j = 0 := by
      unfold minmaxNormalize
      by_cases hne : ((Finset.range H) ×ˢ (Finset.range W)).Nonempty
      · rw [dif_pos hne]
        have hconst : ∀ p ∈ (Finset.range H) ×ˢ (Finset.range W),
            Complex.abs
              (ifft2 H W (ifftshift2 H W (combinedFT mode region H W images weights sels)) p.1 p.2)
              = (fun _ : ℕ × ℕ => (0 : ℝ)) p := fun p _ => hmag p.1 p.2
        have hlo : ((Finset.range H) ×ˢ (Finset.range W)).inf' hne
            (fun p => Complex.abs
              (ifft2 H W (ifftshift2 H W (combinedFT mode region H W images weights sels)) p.1 p.2))
            = 0 := by
          rw [Finset.inf'_congr hne rfl hconst]
          exact Finset.inf'_const hne 0
        have hhi : ((Finset.range H) ×ˢ (Finset.range W)).sup' hne
            (fun p => Complex.abs
              (ifft2 H W (ifftshift2 H W (combinedFT mode region H W images weights sels)) p.1 p.2))
            = 0 := by
          rw [Finset.sup'_congr hne rfl hconst]
          exact Finset.sup'_const hne 0
        simp only [hlo, hhi]
        rw [if_neg (lt_irrefl 0)]
      · rw [dif_neg hne]
    rw [hnorm]
    unfold toUint8
    simp

/-- Witness for `mix_total_shape_stable` at a concrete input: a `2 × 3`
frame with all slots empty. -/
theorem mix_total_shape_stable_witness :
    (mix_images (fun _ => none) (fun _ => 0) (fun _ => "FT Magnitude")
        (0, 0, 200, 200) "None" (some 2) (some 3)).rows = 2
    ∧ (mix_images (fun _ => none) (fun _ => 0) (fun _ => "FT Magnitude")
        (0, 0, 200, 200) "None" (some 2) (some 3)).px 0 0 ≤ 255
    ∧ (mix_images (fun _ => none) (fun _ => 0) (fun _ => "FT Magnitude")
        (0, 0, 200, 200) "None" (some 2) (some 3)).px 1 2 = 0 := by
  have h := mix_total_shape_stable (fun _ => none) (fun _ => 0)
    (fun _ => "FT Magnitude") (0, 0, 200, 200) "None" 2 3
  exact ⟨h.1, h.2.2.1 0 0 (by norm_num) (by norm_num),
    (h.2.2.2 (fun s => Or.inl rfl)).2 1 2⟩

/-! ## ImageProcessor (src/app/core/image_processor.py) -/

/-- A grayscale raster: its shape and a pixel function (rational-valued so
that concrete inputs evaluate exactly). -/
structure Img where
  rows : ℕ
  cols : ℕ
  px : ℕ → ℕ → ℚ

/-- OpenCV's `saturate_cast<uchar>`: round to the nearest integer and clamp
into `[0, 255]`. -/
def saturateUchar (v : ℚ) : ℕ :=
  min 255 (max 0 (round v)).toNat

/-- Model of `cv2.convertScaleAbs(image, alpha, beta)` (OpenCV semantics): per pixel,
`saturate_cast<uchar>(|alpha * src + beta|)` — the absolute value of the
affine result, rounded and saturated to 8 bits. -/
def convertScaleAbs (alpha beta : ℚ) (img : Img) : Img :=
  ⟨img.rows, img.cols, fun i j => (saturateUchar |alpha * img.px i j + beta| : ℚ)⟩

/-- Read a pixel with border replication (indices clamped into range). -/
def pxClamped (img : Img) (y x : ℤ) : ℚ :=
  img.px ((max 0 (min y ((img.rows : ℤ) - 1))).toNat)
    ((max 0 (min x ((img.cols : ℤ) - 1))).toNat)

/-- Model of `cv2.resize(img, (newW, newH), interpolation=cv2.INTER_LINEAR)`:
bilinear interpolation with half-pixel centers (real-valued model of the
OpenCV geometry, without its fixed-point coefficient quantization). -/
def resizeBilinear (img : Img) (newW newH : ℕ) : Img :=
  ⟨newH, newW, fun i j =>
    let sy : ℚ := ((i : ℚ) + 1/2) * (img.rows : ℚ) / (newH : ℚ) - 1/2
    let sx : ℚ := ((j : ℚ) + 1/2) * (img.cols : ℚ) / (newW : ℚ) - 1/2
    let y0 : ℤ := ⌊sy⌋
    let x0 : ℤ := ⌊sx⌋
    let dy : ℚ := sy - (y0 : ℚ)
    let dx : ℚ := sx - (x0 : ℚ)
    (saturateUchar
      ((1 - dy) * (1 - dx) * pxClamped img y0 x0
        + (1 - dy) * dx * pxClamped img y0 (x0 + 1)
        + dy * (1 - dx) * pxClamped img (y0 + 1) x0
        + dy * dx * pxClamped img (y0 + 1) (x0 + 1)) : ℚ)⟩

/-- The `valid_images` list of `process_input_images`: the loaded rasters in
slot order. -/
def validImgs (images : Fin 4 → Option Img) : List Img :=
  (List.finRange 4).filterMap images

/-- Model of `ImageProcessor.process_input_images`: if no raster is loaded, return
four empty slots (leaving the cached `_min_height`/`_min_width` untouched);
otherwise set the cached minima to the minimum height and width over the
loaded rasters, and map every loaded raster through
`convertScaleAbs`-then-`resize`.  Returns the four output slots together
with the new `(min_height, min_width)` cache. -/
def process_input_images (brightness contrast : Fin 4 → ℚ)
    (minH₀ minW₀ : Option ℕ) (images : Fin 4 → Option Img) :
    (Fin 4 → Option Img) × Option ℕ × Option ℕ :=
  match validImgs images with
  | [] => (fun _ => none, (minH₀, minW₀))
  | v :: vs =>
    let mh := (vs.map Img.rows).foldl min v.rows
    let mw := (vs.map Img.cols).foldl min v.cols
    (fun i => (images i).map fun img =>
        resizeBilinear (convertScaleAbs (contrast i) (brightness i) img) mw mh,
      (some mh, some mw))

/-! ## Theorems for C3 (intensity transform and resize) -/

/-- C3 (counterexample to the claim as stated): the claim's formula
`clamp(c·in + b, 0, 255)` sends a negative affine result to 0, but
`cv2.convertScaleAbs` saturates the absolute value: at `in = 0`, `c = 1`,
`b = -100` the code produces pixel `100`, not `0`. -/
theorem adjust_clamp_counterexample :
    (convertScaleAbs 1 (-100) ⟨1, 1, fun _ _ => 0⟩).px 0 0 = 100
    ∧ min 255 (max 0 (round ((1 : ℚ) * 0 + (-100)))).toNat = 0
    ∧ (100 : ℚ) ≠ 0 := by
  have hneg : ((1 : ℚ) * 0 + (-100)) = ((-100 : ℤ) : ℚ) := by norm_num
  refine ⟨?_, ?_, by norm_num⟩
  · show (saturateUchar |(1 : ℚ) * 0 + (-100)| : ℚ) = 100
    have h1 : |(1 : ℚ) * 0 + (-100)| = ((100 : ℤ) : ℚ) := by norm_num
    rw [h1]
    unfold saturateUchar
    rw [round_intCast]
    norm_num
    show ((100 : ℕ) : ℚ) = 100
    norm_num
  · rw [hneg, round_intCast]
    decide

/-- C3 (amended): empty slots stay empty; every loaded slot is mapped to its
intensity-adjusted raster resized to the WorkingFrame by bilinear
interpolation; and every pixel of the intensity-adjusted raster equals
`min(255, round(|c·in + b|))` — the saturated absolute value of the affine
result (a negative affine result maps to its absolute value, saturated at
255, not to 0). -/
theorem adjust_then_resize (brightness contrast : Fin 4 → ℚ)
    (minH₀ minW₀ : Option ℕ) (images : Fin 4 → Option Img) :
    (∀ i, images i = none →
        (process_input_images brightness contrast minH₀ minW₀ images).1 i = none)
    ∧ (∀ i img H W, images i = some img →
        (process_input_images brightness contrast minH₀ minW₀ images).2 = (some H, some W) →
        (process_input_images brightness contrast minH₀ minW₀ images).1 i
          = some (resizeBilinear (convertScaleAbs (contrast i) (brightness i) img) W H))
    ∧ (∀ (c b : ℚ) (im : Img) (r s : ℕ),
        (convertScaleAbs c b im).px r s
          = (min 255 (round |c * im.px r s + b|).toNat : ℕ)) := by
  refine ⟨?_, ?_, ?_⟩
  · intro i hnone
    cases hv : validImgs images with
    | nil => simp [process_input_images, hv]
    | cons v vs => simp [process_input_images, hv, hnone]
  · intro i img H W hsome hdims
    have hmem : img ∈ validImgs images := by
      unfold validImgs
      exact List.mem_filterMap.mpr ⟨i, List.mem_finRange i, hsome⟩
    cases hv : validImgs images with
    | nil => rw [hv] at hmem; cases hmem
    | cons v vs =>
      rw [process_input_images, hv] at hdims ⊢
      simp only [Prod.mk.injEq, Option.some.injEq] at hdims
      simp only [hsome, Option.map_some', hdims.1, hdims.2]
  · intro c b im r s
    show (saturateUchar |c * im.px r s + b| : ℚ) = _
    unfold saturateUchar
    have habs : (0 : ℚ) ≤ |c * im.px r s + b| := abs_nonneg _
    have hround : 0 ≤ round |c * im.px r s + b| := by
      rw [round_eq]
      exact Int.floor_nonneg.mpr (by linarith)
    rw [max_eq_right hround]

/-- Witness for `adjust_then_resize`: a single loaded `1 × 1` raster of
value 7 with contrast 2 and brightness 3. -/
theorem adjust_then_resize_witness :
    ((fun i : Fin 4 => if i = 0 then some (⟨1, 1, fun _ _ => 7⟩ : Img) else none) 1 = none
      → (process_input_images (fun _ => 3) (fun _ => 2) none none
          (fun i => if i = 0 then some ⟨1, 1, fun _ _ => 7⟩ else none)).1 1 = none)
    ∧ (convertScaleAbs 2 3 ⟨1, 1, fun _ _ => 7⟩).px 0 0
        = (min 255 (round |(2 : ℚ) * 7 + 3|).toNat : ℕ) := by
  have h := adjust_then_resize (fun _ => 3) (fun _ => 2) none none
    (fun i => if i = 0 then some ⟨1, 1, fun _ _ => 7⟩ else none)
  exact ⟨h.1 1, h.2.2 2 3 ⟨1, 1, fun _ _ => 7⟩ 0 0⟩

/-! ## Theorems for C4 (WorkingFrame computation) -/

/-- A `min`-fold is bounded by its initial value. -/
theorem foldl_min_le_init (a : ℕ) (l : List ℕ) : l.foldl min a ≤ a := by
  induction l generalizing a with
  | nil => exact le_refl a
  | cons x t ih => exact le_trans (ih (min a x)) (min_le_left a x)

/-- A `min`-fold is bounded by every list element. -/
theorem foldl_min_le_mem (a : ℕ) (l : List ℕ) :
    ∀ x ∈ l, l.foldl min a ≤ x := by
  induction l generalizing a with
  | nil => intro x hx; cases hx
  | cons y t ih =>
    intro x hx
    rcases List.mem_cons.mp hx with rfl | hx
    · exact le_trans (foldl_min_le_init (min a x) t) (min_le_right a x)
    · exact ih (min a y) x hx

/-- A `min`-fold equals its initial value or some list element. -/
theorem foldl_min_attained (a : ℕ) (l : List ℕ) :
    l.foldl min a = a ∨ l.foldl min a ∈ l := by
  induction l generalizing a with
  | nil => exact Or.inl rfl
  | cons x t ih =>
    rcases ih (min a x) with h | h
    · rcases min_cases a x with ⟨hm, _⟩ | ⟨hm, _⟩
      · exact Or.inl (by rw [List.foldl_cons, h, hm])
      · exact Or.inr (by rw [List.foldl_cons, h, hm]; exact List.mem_cons_self x t)
    · exact Or.inr (List.mem_cons_of_mem x h)

/-- C4 (counterexample to the claim as stated): calling
`process_input_images` with zero loaded rasters does *not* make the
WorkingFrame undefined — the cached minima keep their previous (stale)
values.  Starting from cached `(some 5, some 7)`, the call returns four
empty slots but the cache stays `(some 5, some 7)` instead of becoming
`(none, none)`. -/
theorem working_frame_stale_counterexample :
    (process_input_images (fun _ => 0) (fun _ => 1) (some 5) (some 7)
        (fun _ => none)).2 = (some 5, some 7)
    ∧ ((some 5 : Option ℕ), (some 7 : Option ℕ)) ≠ (none, none) := by
  exact ⟨rfl, by simp⟩

/-- C4 (amended): when zero input rasters are loaded the output is four
empty slots and the cached WorkingFrame is left unchanged (it may be stale;
callers reset it separately); otherwise the new WorkingFrame is exactly
(minimum height over loaded rasters, minimum width over loaded rasters),
recomputed from scratch — the result is independent of the previously
cached values. -/
theorem working_frame_recompute (brightness contrast : Fin 4 → ℚ)
    (minH₀ minW₀ : Option ℕ) (images : Fin 4 → Option Img) :
    (validImgs images = [] →
      (process_input_images brightness contrast minH₀ minW₀ images).1 = (fun _ => none)
      ∧ (process_input_images brightness contrast minH₀ minW₀ images).2 = (minH₀, minW₀))
    ∧ (∀ v vs, validImgs images = v :: vs →
        ∃ mh mw,
          (process_input_images brightness contrast minH₀ minW₀ images).2
            = (some mh, some mw)
          ∧ (∀ im ∈ validImgs images, mh ≤ im.rows ∧ mw ≤ im.cols)
          ∧ (∃ im₁ ∈ validImgs images, im₁.rows = mh)
          ∧ (∃ im₂ ∈ validImgs images, im₂.cols = mw))
    ∧ (∀ minH₁ minW₁, validImgs images ≠ [] →
        (process_input_images brightness contrast minH₀ minW₀ images).2
          = (process_input_images brightness contrast minH₁ minW₁ images).2) := by
  refine ⟨?_, ?_, ?_⟩
  · intro hv
    constructor <;> simp [process_input_images, hv]
  · intro v vs hv
    refine ⟨(vs.map Img.rows).foldl min v.rows, (vs.map Img.cols).foldl min v.cols,
      by simp [process_input_images, hv], ?_, ?_, ?_⟩
    · intro im him
      rw [hv] at him
      rcases List.mem_cons.mp him with rfl | him
      · exact ⟨foldl_min_le_init _ _, foldl_min_le_init _ _⟩
      · exact ⟨foldl_min_le_mem _ _ _ (List.mem_map_of_mem Img.rows him),
          foldl_min_le_mem _ _ _ (List.mem_map_of_mem Img.cols him)⟩
    · rcases foldl_min_attained v.rows (vs.map Img.rows) with h | h
      · exact ⟨v, by rw [hv]; exact List.mem_cons_self v vs, h.symm ▸ rfl⟩
      · rcases List.mem_map.mp h with ⟨im, him, hrows⟩
        exact ⟨im, by rw [hv]; exact List.mem_cons_of_mem v him, hrows⟩
    · rcases foldl_min_attained v.cols (vs.map Img.cols) with h | h
      · exact ⟨v, by rw [hv]; exact List.mem_cons_self v vs, h.symm ▸ rfl⟩
      · rcases List.mem_map.mp h with ⟨im, him, hcols⟩
        exact ⟨im, by rw [hv]; exact List.mem_cons_of_mem v him, hcols⟩
  · intro minH₁ minW₁ hne
    cases hv : validImgs images with
    | nil => exact absurd hv hne
    | cons v vs => simp [process_input_images, hv]

/-- Witness for `working_frame_recompute`, Scenario B: rasters of size
`300 × 400` and `250 × 500` in slots 0 and 1 yield WorkingFrame
`(250, 400)`, independently of the previously cached values. -/
theorem working_frame_recompute_witness :
    (process_input_images (fun _ => 0) (fun _ => 1) none none
        (fun i => if i = 0 then some ⟨300, 400, fun _ _ => 0⟩
          else if i = 1 then some ⟨250, 500, fun _ _ => 0⟩ else none)).2
      = (some 250, some 400)
    ∧ (process_input_images (fun _ => 0) (fun _ => 1) none none
        (fun i => if i = 0 then some ⟨300, 400, fun _ _ => 0⟩
          else if i = 1 then some ⟨250, 500, fun _ _ => 0⟩ else none)).2
      = (process_input_images (fun _ => 0) (fun _ => 1) (some 99) (some 98)
        (fun i => if i = 0 then some ⟨300, 400, fun _ _ => 0⟩
          else if i = 1 then some ⟨250, 500, fun _ _ => 0⟩ else none)).2 := by
  constructor
  · rfl
  · exact (working_frame_recompute (fun _ => 0) (fun _ => 1) none none
      (fun i => if i = 0 then some ⟨300, 400, fun _ _ => 0⟩
        else if i = 1 then some ⟨250, 500, fun _ _ => 0⟩ else none)).2.2
      (some 99) (some 98)
      (by
        have hval : validImgs
            (fun i : Fin 4 => if i = 0 then some (⟨300, 400, fun _ _ => 0⟩ : Img)
              else if i = 1 then some ⟨250, 500, fun _ _ => 0⟩ else none)
            = [⟨300, 400, fun _ _ => 0⟩, ⟨250, 500, fun _ _ => 0⟩] := rfl
        rw [hval]
        exact List.cons_ne_nil _ _)

/-! ## ApplicationLogic.start_mixing_process (src/main.py) -/

/-- The control-side state read and written by `start_mixing_process`:
the four raw image slots, per-slot weights and component-selector texts, the
liveness of the previous worker thread and its cancellation flag, the status
label, the progress bar, whether the output viewports display an image, and
whether this call started a new mixing thread. -/
structure SubmitState where
  raw : Fin 4 → Option Img
  weights : Fin 4 → ℚ
  selections : Fin 4 → String
  workerAlive : Bool
  cancelRequested : Bool
  status : String
  progressValue : ℕ
  outputDisplayed : Bool
  jobStarted : Bool

/-- The check `any(img is not None for img in self.raw_images)`. -/
def anyLoaded (s : SubmitState) : Bool :=
  (List.finRange 4).any fun i => (s.raw i).isSome

/-- The first slot index at which the validation loop returns with a
component-selection error: loaded, positive weight, and the placeholder
text `"Select Mode"` selected. -/
def firstInvalidWeighted (s : SubmitState) : Option (Fin 4) :=
  (List.finRange 4).find? fun i =>
    (s.raw i).isSome && decide (0 < s.weights i) && (s.selections i == "Select Mode")

/-- The `can_mix` flag at the end of a loop that hit no error: some slot is loaded
with positive weight. -/
def canMixFlag (s : SubmitState) : Bool :=
  (List.finRange 4).any fun i => (s.raw i).isSome && decide (0 < s.weights i)

/-- The first statement of `start_mixing_process`: if the previous worker
thread is alive, set its cancellation flag (a non-blocking `cancel()`). -/
def requestCancelIfAlive (s : SubmitState) : SubmitState :=
  if s.workerAlive then { s with cancelRequested := true } else s

/-- The validation-and-start part of `start_mixing_process`, run after the
cancellation request: no image loaded reports an error and returns; a
loaded, positively weighted slot whose selector still shows the placeholder
reports an error and returns; if no slot is loaded with positive weight,
report, clear the mixed output and return; otherwise reset the progress bar
and start a new mixing thread. -/
def validateAndStart (s₁ : SubmitState) : SubmitState :=
  if anyLoaded s₁ = false then
    { s₁ with status := "Load at least one image." }
  else
    match firstInvalidWeighted s₁ with
    | some i =>
      { s₁ with status := "Error: Select a component for Viewport " ++ toString (i.val + 1) }
    | none =>
      if canMixFlag s₁ then
        { s₁ with
            status := "Mixing..."
            progressValue := 0
            jobStarted := true
            workerAlive := true }
      else
        { s₁ with
            status := "Set non-zero weights for loaded images."
            outputDisplayed := false }

/-- Model of `ApplicationLogic.start_mixing_process`: request cancellation of any
live worker, then validate and (on success) start a new mixing thread. -/
def start_mixing_process (s : SubmitState) : SubmitState :=
  validateAndStart (requestCancelIfAlive s)

/-! ## Theorems for C5 (submit validation) -/

/-- A state with slot 0 loaded at weight 1 and a valid selection, while the
*unloaded* slot 1 has weight 1 and the placeholder selection. -/
def submitStateA : SubmitState :=
  { raw := fun i => if i = 0 then some ⟨10, 10, fun _ _ => 0⟩ else none
    weights := fun i => if i = 0 then 1 else if i = 1 then 1 else 0
    selections := fun i => if i = 0 then "FT Magnitude" else "Select Mode"
    workerAlive := false, cancelRequested := false, status := ""
    progressValue := 0, outputDisplayed := true, jobStarted := false }

/-- A state with no image loaded while a previous worker thread is alive. -/
def submitStateB : SubmitState :=
  { raw := fun _ => none
    weights := fun _ => 0
    selections := fun _ => "Select Mode"
    workerAlive := true, cancelRequested := false, status := ""
    progressValue := 0, outputDisplayed := true, jobStarted := false }

/-- C5 (counterexample to the claim as stated): (1) in `submitStateA` the
unloaded slot 1 has weight `1 > 0` and the placeholder selection, yet
`start_mixing_process` starts a job — validation skips slots that are not
loaded; (2) in `submitStateB` validation fails (nothing loaded, no job
started) but the state does not stay unchanged: the in-flight worker's
cancellation is requested before validation runs. -/
theorem submit_validation_counterexample :
    ((submitStateA.raw 1).isSome = false ∧ 0 < submitStateA.weights 1
      ∧ submitStateA.selections 1 = "Select Mode"
      ∧ (start_mixing_process submitStateA).jobStarted = true)
    ∧ (anyLoaded submitStateB = false
      ∧ (start_mixing_process submitStateB).jobStarted = false
      ∧ submitStateB.cancelRequested = false
      ∧ (start_mixing_process submitStateB).cancelRequested = true) := by
  constructor
  · exact ⟨rfl, by norm_num [submitStateA], rfl, by decide⟩
  · exact ⟨rfl, by decide, rfl, by decide⟩

/-- C5 (amended): `start_mixing_process` never mutates the slots, weights or
selections; it always requests cancellation of a live previous worker (even
when validation then fails); when no slot is loaded, or when some *loaded*
slot with positive weight still has the placeholder selection, it reports a
validation error and starts no job, leaving the displayed output untouched;
when no loaded slot has positive weight it reports, starts no job and clears
the displayed output; otherwise it starts a job. -/
theorem submit_validation (s : SubmitState) :
    ((start_mixing_process s).raw = s.raw
      ∧ (start_mixing_process s).weights = s.weights
      ∧ (start_mixing_process s).selections = s.selections)
    ∧ (start_mixing_process s).cancelRequested = (s.cancelRequested || s.workerAlive)
    ∧ (anyLoaded s = false →
        (start_mixing_process s).jobStarted = s.jobStarted
        ∧ (start_mixing_process s).status = "Load at least one image."
        ∧ (start_mixing_process s).outputDisplayed = s.outputDisplayed)
    ∧ (∀ i, anyLoaded s = true → firstInvalidWeighted s = some i →
        (start_mixing_process s).jobStarted = s.jobStarted
        ∧ (start_mixing_process s).status
            = "Error: Select a component for Viewport " ++ toString (i.val + 1)
        ∧ (start_mixing_process s).outputDisplayed = s.outputDisplayed)
    ∧ (anyLoaded s = true → firstInvalidWeighted s = none → canMixFlag s = false →
        (start_mixing_process s).jobStarted = s.jobStarted
        ∧ (start_mixing_process s).status = "Set non-zero weights for loaded images."
        ∧ (start_mixing_process s).outputDisplayed = false)
    ∧ (anyLoaded s = true → firstInvalidWeighted s = none → canMixFlag s = true →
        (start_mixing_process s).jobStarted = true
        ∧ (start_mixing_process s).status = "Mixing..."
        ∧ (start_mixing_process s).progressValue = 0) := by
  have hfields : (requestCancelIfAlive s).raw = s.raw
      ∧ (requestCancelIfAlive s).weights = s.weights
      ∧ (requestCancelIfAlive s).selections = s.selections
      ∧ (requestCancelIfAlive s).jobStarted = s.jobStarted
      ∧ (requestCancelIfAlive s).outputDisplayed = s.outputDisplayed
      ∧ (requestCancelIfAlive s).cancelRequested
          = (s.cancelRequested || s.workerAlive) := by
    cases hw : s.workerAlive <;> simp [requestCancelIfAlive, hw]
  have hany : anyLoaded (requestCancelIfAlive s) = anyLoaded s := by
    cases hw : s.workerAlive <;> simp [requestCancelIfAlive, hw, anyLoaded]
  have hfirst : firstInvalidWeighted (requestCancelIfAlive s)
      = firstInvalidWeighted s := by
    cases hw : s.workerAlive <;> simp [requestCancelIfAlive, hw, firstInvalidWeighted]
  have hcan : canMixFlag (requestCancelIfAlive s) = canMixFlag s := by
    cases hw : s.workerAlive <;> simp [requestCancelIfAlive, hw, canMixFlag]
  obtain ⟨h₁, h₂, h₃, h₄, h₅, h₆⟩ := hfields
  unfold start_mixing_process validateAndStart
  rw [hany, hfirst, hcan]
  cases hl : anyLoaded s with
  | false => simp [h₁, h₂, h₃, h₄, h₅, h₆]
  | true =>
    cases hf : firstInvalidWeighted s with
    | some i =>
      simp [h₁, h₂, h₃, h₄, h₅, h₆]
    | none =>
      cases hc : canMixFlag s with
      | false => simp [h₁, h₂, h₃, h₄, h₅, h₆]
      | true => simp [h₁, h₂, h₃, h₄, h₅, h₆]

/-- Witness for `submit_validation`, Scenario D: one slot loaded with weight
0 — validation fails, no job starts, and the displayed output is cleared. -/
def submitStateD : SubmitState :=
  { raw := fun i => if i = 0 then some ⟨10, 10, fun _ _ => 0⟩ else none
    weights := fun _ => 0
    selections := fun _ => "FT Magnitude"
    workerAlive := false, cancelRequested := false, status := ""
    progressValue := 0, outputDisplayed := true, jobStarted := false }

/-- Witness for `submit_validation` at `submitStateD`. -/
theorem submit_validation_witness :
    (start_mixing_process submitStateD).jobStarted = submitStateD.jobStarted
    ∧ (start_mixing_process submitStateD).status
        = "Set non-zero weights for loaded images."
    ∧ (start_mixing_process submitStateD).outputDisplayed = false :=
  (submit_validation submitStateD).2.2.2.2.1 (by decide) (by decide) (by decide)

/-! ## MixingThread.run (src/app/workers/mixing_thread.py) -/

/-- A signal emitted by the worker thread, in emission order. -/
inductive Event where
  | progress : ℕ → Event
  | finished : Event
  | canceled : Event
  | error : Event
deriving DecidableEq, Repr

/-- Whether the cancellation flag is observed set at the `k`-th check
(checks 0–4 open the five loop iterations; check 5 is the
`if not self._is_canceled` guard after the loop).  `cancelFrom = some t`
means the flag is set from check `t` on (it is only ever set, never
cleared); `none` means it is never set. -/
def cancelObserved (cancelFrom : Option ℕ) (k : ℕ) : Bool :=
  match cancelFrom with
  | none => false
  | some t => t ≤ k

/-- The events emitted by the progress loop of `MixingThread.run` over the
remaining iteration indices: each iteration first checks the flag (emitting
`canceled` and returning if set), then emits the milestone
`int((i + 1) / steps * 100)` (with `steps = 5` the float arithmetic yields
exactly 20, 40, 60, 80, 100). -/
def loopEvents (cancelFrom : Option ℕ) : List ℕ → List Event
  | [] => []
  | i :: rest =>
    if cancelObserved cancelFrom i then [Event.canceled]
    else Event.progress ((i + 1) * 100 / 5) :: loopEvents cancelFrom rest

/-- Model of `MixingThread.run`: emit `progress 0`; run the five-step loop; if the
loop was not canceled, check the flag once more — if clear, run the core
(`success` tells whether `execute_mixing_core` returns or raises): on
return emit `progress 100` then `finished`; on an exception the `except`
clause emits `error` then `progress 0`.  If the post-loop check sees the
flag, the method simply returns — no further event. -/
def mixingRun (cancelFrom : Option ℕ) (success : Bool) : List Event :=
  Event.progress 0 ::
    (loopEvents cancelFrom [0, 1, 2, 3, 4] ++
      (if cancelObserved cancelFrom 4 then []
       else if cancelObserved cancelFrom 5 then []
       else if success then [Event.progress 100, Event.finished]
       else [Event.error, Event.progress 0]))

/-- Whether an event is terminal (Completed / Cancelled / Failed). -/
def isTerminalEvent : Event → Bool
  | Event.progress _ => false
  | _ => true

/-- The progress values of a trace, in order. -/
def progressValues (tr : List Event) : List ℕ :=
  tr.filterMap fun e =>
    match e with
    | Event.progress n => some n
    | _ => none

/-- Whether a list of naturals is non-decreasing. -/
def nonDecreasing : List ℕ → Bool
  | [] => true
  | [_] => true
  | a :: b :: rest => decide (a ≤ b) && nonDecreasing (b :: rest)

/-- Whether a trace ends in a terminal event. -/
def lastIsTerminal (tr : List Event) : Bool :=
  match tr.getLast? with
  | some e => isTerminalEvent e
  | none => false

/-- The property C6 asserts of every executed job's event sequence:
progress values monotonically increasing (non-decreasing), 100 emitted only
when the job succeeds, and the progress events followed by exactly one
terminal event which closes the sequence. -/
def eventClaimHolds (tr : List Event) : Prop :=
  nonDecreasing (progressValues tr) = true
  ∧ (100 ∈ progressValues tr → Event.finished ∈ tr)
  ∧ (tr.filter isTerminalEvent).length = 1
  ∧ lastIsTerminal tr = true

instance (tr : List Event) : Decidable (eventClaimHolds tr) := by
  unfold eventClaimHolds
  infer_instance

/-- Two cancellation histories that agree at every checked index produce the
same loop events. -/
theorem loopEvents_congr (c₁ c₂ : Option ℕ) (l : List ℕ)
    (h : ∀ k ∈ l, cancelObserved c₁ k = cancelObserved c₂ k) :
    loopEvents c₁ l = loopEvents c₂ l := by
  induction l with
  | nil => rfl
  | cons i rest ih =>
    simp only [loopEvents]
    rw [h i (List.mem_cons_self i rest)]
    cases hc : cancelObserved c₂ i with
    | true => simp
    | false =>
      simp only [Bool.false_eq_true, if_false]
      rw [ih fun k hk => h k (List.mem_cons_of_mem i hk)]

/-! ## Theorems for C6 (job event sequences) -/

/-- C6 (counterexample to the claim as stated): a job whose core raises
(never canceled) emits `0,20,40,60,80,100`, then `error`, then `progress 0`
— the value 100 is emitted although the job failed, a progress event
follows the terminal event, and the progress values decrease after the
error. -/
theorem event_sequence_counterexample :
    mixingRun none false
      = [Event.progress 0, Event.progress 20, Event.progress 40, Event.progress 60,
        Event.progress 80, Event.progress 100, Event.error, Event.progress 0]
    ∧ ¬ eventClaimHolds (mixingRun none false) := by
  constructor
  · rfl
  · decide

/-- C6 (amended): the traces of `MixingThread.run` are exactly — on success
with no cancellation: milestones `0,20,40,60,80,100`, a repeated
`progress 100`, then `finished` (the single terminal event, non-decreasing
progress); on failure with no cancellation: the full milestones (including
100) then `error` followed by a `progress 0` reset — the 100 milestone is
emitted even though the job fails and a progress event follows the
terminal; on cancellation observed at loop check `t ≤ 4`: the milestones
before `t` then `canceled`; on cancellation first observed at the post-loop
check (`t = 5`): the full milestones and *no* terminal event at all; a flag
set only after every check (`t ≥ 6`) behaves as never-canceled. -/
theorem event_sequence_characterization (c : Option ℕ) (s : Bool) :
    (c = none → s = true →
      mixingRun c s
        = [Event.progress 0, Event.progress 20, Event.progress 40, Event.progress 60,
          Event.progress 80, Event.progress 100, Event.progress 100, Event.finished])
    ∧ (c = none → s = false →
      mixingRun c s
        = [Event.progress 0, Event.progress 20, Event.progress 40, Event.progress 60,
          Event.progress 80, Event.progress 100, Event.error, Event.progress 0])
    ∧ (∀ t, c = some t → t ≤ 4 →
      mixingRun c s
        = (Event.progress 0 :: (List.range t).map fun i => Event.progress ((i + 1) * 100 / 5))
          ++ [Event.canceled])
    ∧ (c = some 5 →
      mixingRun c s
        = [Event.progress 0, Event.progress 20, Event.progress 40, Event.progress 60,
          Event.progress 80, Event.progress 100])
    ∧ (∀ t, c = some t → 6 ≤ t → mixingRun c s = mixingRun none s) := by
  refine ⟨?_, ?_, ?_, ?_, ?_⟩
  · rintro rfl rfl; rfl
  · rintro rfl rfl; rfl
  · rintro t rfl ht
    interval_cases t <;> rfl
  · rintro rfl; cases s <;> rfl
  · rintro t rfl ht
    have h4 : cancelObserved (some t) 4 = false := by
      simp [cancelObserved]; omega
    have h5 : cancelObserved (some t) 5 = false := by
      simp [cancelObserved]; omega
    have hloop : loopEvents (some t) [0, 1, 2, 3, 4] = loopEvents none [0, 1, 2, 3, 4] :=
      loopEvents_congr (some t) none [0, 1, 2, 3, 4]
        (by
          intro k hk
          fin_cases hk <;> simp [cancelObserved] <;> omega)
    unfold mixingRun
    rw [h4, h5, hloop]
    rfl

/-- Witness for `event_sequence_characterization`: cancellation observed at
loop check 2 yields `progress 0, 20, 40` then `canceled`. -/
theorem event_sequence_characterization_witness :
    mixingRun (some 2) true
      = (Event.progress 0 :: (List.range 2).map fun i => Event.progress ((i + 1) * 100 / 5))
        ++ [Event.canceled] :=
  (event_sequence_characterization (some 2) true).2.2.1 2 rfl (by decide)

end FTMixer
